import Mathlib

/-!
Verification of the temporal-total-variation NLCG reconstruction solver
(`cs_recon/recon.py`).

The file embeds the two solver variants of the repository shallowly:

* the class-based solver `TotalVariationReconNLCG` (namespace `NLCG` below), and
* the free-function solver `TotalVariationRecon_NLCG` with its helpers
  `temporal_tv_update`, `fidelity_update`, `line_search`, `calculate_tnorm`.

Images and k-space data are modelled as lists of frames, each frame a flat list
of complex pixels/samples (`K`).  The external measurement operator (sensitivity
weighting composed with the non-uniform Fourier transform and its adjoint,
built by the source from `sigpy` linops) is out of scope per the spec and is
passed in as a pair of functions.  Machine floats are idealised as real
numbers; `eps` is the double-precision machine epsilon `2⁻⁵²` used by the code
(`np.finfo(float).eps`).  An image with fewer than two frames makes the source
raise an `IndexError` inside the temporal-gradient assembly; the embedding
returns `[]` there, and all statements about the temporal gradient assume at
least two frames, as the spec does.
-/

namespace CsRecon

noncomputable section

/-- Image sequences and k-space datasets: a list of frames, each a flat list of
complex entries. -/
abbrev K : Type := List (List ℂ)

/-- Machine epsilon for doubles, `np.finfo(float).eps = 2 ** (-52)`. -/
def eps : ℝ := 1 / 2 ^ 52

/-- Entrywise difference of two frames (`a - b`), as numpy broadcasts it. -/
def frameSub (a b : List ℂ) : List ℂ := List.zipWith (fun x y => x - y) a b

/-- `xp.diff(img, n=1, axis=0)`: adjacent-frame differences `img[k+1] - img[k]`. -/
def npDiff (l : K) : K := List.zipWith frameSub l.tail l

/-- `util.axpy(y, a, x)`, i.e. `y + a * x` entrywise (the source mutates `y`
in place; the embedding returns the new array). -/
def imgAxpy (y0 : K) (a : ℂ) (x : K) : K :=
  List.zipWith (List.zipWith (fun u v => u + a * v)) y0 x

/-- Entrywise scalar multiple of an image. -/
def imgSmul (a : ℂ) (x : K) : K := x.map (fun fr => fr.map (fun v => a * v))

/-- Entrywise difference of two k-space datasets / images. -/
def kspSub (a b : K) : K := List.zipWith frameSub a b

/-- `xp.vdot(x, y)` over the flattened arrays: sum of `conj x * y`. -/
def imgVdot (x y0 : K) : ℂ :=
  ((List.zipWith (List.zipWith (fun u v => (starRingEnd ℂ) u * v)) x y0).map List.sum).sum

/-- `img.size`: the total element count of the array. -/
def imgSize (x : K) : ℕ := (x.map List.length).sum

/-- `ksp * dcf ** 0.5`: pre-weighting of the measured k-space data by the
square root of the density-compensation weights, applied once at
construction. -/
def kspWeight (ksp : K) (dcf : List ℝ) : K :=
  ksp.map (fun fr => List.zipWith (fun z w => z * Complex.ofReal (Real.sqrt w)) fr dcf)

/-- One entry of the smoothed TV normalisation:
`d / sqrt(abs(d) ** 2 + eps)`. -/
def smoothNormalize (z : ℂ) : ℂ :=
  z / Complex.ofReal (Real.sqrt (Complex.abs z ^ 2 + eps))

/-- Entrywise smoothed TV normalisation of a difference frame. -/
def normalizeFrame (fr : List ℂ) : List ℂ := fr.map smoothNormalize

/-- Sum of entrywise magnitudes of a frame. -/
def frameAbsSum (fr : List ℂ) : ℝ := (fr.map (fun z => Complex.abs z)).sum

/-- `temporal_tv_update(img)` (recon.py lines 287-299): the smoothed
temporal-TV gradient.  `temp_b` is the normalised forward difference, and the
output is assembled as `temp_b[0]`, the interior second difference, and
`-temp_b[-1]`.  For fewer than two frames the source raises; the embedding
returns `[]`. -/
def temporal_tv_update (img : K) : K :=
  let temp_b := (npDiff img).map normalizeFrame
  let temp_c := npDiff temp_b
  match temp_b with
  | [] => []
  | b0 :: _ => (b0 :: temp_c) ++ [(temp_b.getLastD []).map (fun z => -z)]

/-- `calculate_tnorm(img, lambda_t)` (recon.py lines 349-356):
`lambda_t * sum(abs(diff(img, axis=0))) / img.size`. -/
def calculate_tnorm (img : K) (lambda_t : ℝ) : ℝ :=
  lambda_t * (((npDiff img).map frameAbsSum).sum) / (imgSize img : ℝ)

/-- `fidelity_update(img, kdata, kweight, kloc, sens_map)` (recon.py lines
302-323).  The per-frame forward operator (sensitivity weighting followed by
the non-uniform transform at that frame's trajectory) is the external
collaborator `fwd`; `adjW` is the adjoint path (multiply by `kweight`, adjoint
transform, conjugate-sensitivity combination).  Returns the gradient and
`abs(sum_frames vdot(resid, resid)) / img.size`. -/
def fidelity_update (fwd adjW : K → K) (kdata img : K) : K × ℝ :=
  let r := kspSub kdata (fwd img)
  (adjW r, Complex.abs (imgVdot r r) / (imgSize img : ℝ))

/-- Core of both line searches (recon.py lines 199-219 and 326-346):
`costAt s` is the total cost of `img + s * direction`.  Growth factor
`a = 1.3`, shrink factor `b = 0.8`, and the three-way comparison with the
`improved` flag are exactly the source's `elif` chain; the fuel argument is
the sub-iteration budget (15 at both call sites). -/
def ls_aux (costAt : ℝ → ℝ) : ℕ → ℝ → ℝ → Bool → ℝ
  | 0, step, _, _ => step
  | n + 1, step, costOld, flag =>
      let costNew := costAt step
      if costNew > costOld ∧ flag = false then
        ls_aux costAt n (step * (4 / 5)) costOld flag
      else if costNew < costOld then
        ls_aux costAt n (step * (13 / 10)) costNew true
      else if costNew > costOld ∧ flag = true then
        step / (13 / 10)
      else
        ls_aux costAt n step costOld flag

/-- Instrumented copy of `ls_aux` that also counts how many sub-iterations of
the search loop were executed before returning. -/
def ls_count (costAt : ℝ → ℝ) : ℕ → ℝ → ℝ → Bool → ℝ × ℕ
  | 0, step, _, _ => (step, 0)
  | n + 1, step, costOld, flag =>
      let costNew := costAt step
      if costNew > costOld ∧ flag = false then
        let r := ls_count costAt n (step * (4 / 5)) costOld flag
        (r.1, r.2 + 1)
      else if costNew < costOld then
        let r := ls_count costAt n (step * (13 / 10)) costNew true
        (r.1, r.2 + 1)
      else if costNew > costOld ∧ flag = true then
        (step / (13 / 10), 1)
      else
        let r := ls_count costAt n step costOld flag
        (r.1, r.2 + 1)

/-- Total cost of the candidate `img + s * upd` as evaluated inside the
free-function `line_search` (fidelity via `fidelity_update`, regulariser via
`calculate_tnorm`). -/
def lscost_f (fwd adjW : K → K) (kdata : K) (lambda_t : ℝ) (img upd : K) (s : ℝ) : ℝ :=
  let imgNew := imgAxpy img (s : ℂ) upd
  (fidelity_update fwd adjW kdata imgNew).2 + calculate_tnorm imgNew lambda_t

/-- `line_search(img, update_term, kdata, kweight, kloc, sens_map, step_size,
cost_old, lambda_t)` (recon.py lines 326-346), with budget 15. -/
def line_search (fwd adjW : K → K) (kdata : K) (lambda_t : ℝ) (img upd : K)
    (step_size cost_old : ℝ) : ℝ :=
  ls_aux (lscost_f fwd adjW kdata lambda_t img upd) 15 step_size cost_old false

/-- The combined gradient of the free-function solver at one iteration:
fidelity gradient plus `lambda_t` times the temporal-TV gradient (recon.py
lines 257-258). -/
def fnGrad (fwd adjW : K → K) (kdata : K) (lambda_t : ℝ) (img : K) : K :=
  imgAxpy (fidelity_update fwd adjW kdata img).1 ((lambda_t : ℝ) : ℂ)
    (temporal_tv_update img)

/-- The iteration-0 conjugation coefficient of both variants:
`⟨g, g⟩ / (⟨g, g⟩ + eps)`, since `f2_old` / `update_old` alias the freshly
computed gradient at iteration 0. -/
def cgBeta (g : K) : ℂ := imgVdot g g / (imgVdot g g + (eps : ℂ))

/-- Per-iteration results of the free-function solver loop body (recon.py
lines 256-272): updated image, accepted step, the stored `update_old`, and the
three cost components recorded for this iteration. -/
structure FnBodyOut where
  imgOut : K
  stepOut : ℝ
  updOld : K
  fnormT : ℝ
  tnormT : ℝ
  costT : ℝ

/-- One iteration of the `TotalVariationRecon_NLCG` loop body (recon.py lines
256-272).  `prev` is `update_old` from the previous iteration (`none` at
iteration 0, where the source initialises `update_old = update_term`). -/
def fnBody (fwd adjW : K → K) (kdata : K) (lambda_t : ℝ) (img : K)
    (prev : Option K) (step : ℝ) : FnBodyOut :=
  let fu := fidelity_update fwd adjW kdata img
  let u := imgAxpy fu.1 ((lambda_t : ℝ) : ℂ) (temporal_tv_update img)
  let uold := prev.getD u
  let beta := imgVdot u u / (imgVdot uold uold + (eps : ℂ))
  let u2 := imgAxpy u beta uold
  let tnormT := calculate_tnorm img lambda_t
  let costT := fu.2 + tnormT
  let stepOut := line_search fwd adjW kdata lambda_t img u2 step costT
  let imgOut := imgAxpy img ((stepOut : ℝ) : ℂ) u2
  ⟨imgOut, stepOut, u2, fu.2, tnormT, costT⟩

/-- The `for iter in range(max_iter)` loop of `TotalVariationRecon_NLCG`
(recon.py lines 255-284).  The cost components are assigned at the top of the
iteration and the returned traces are sliced `0:iter+1`, so the terminating
iteration's entry is kept when the `step_size < 1e-4` break fires. -/
def fnLoop (fwd adjW : K → K) (kdata : K) (lambda_t : ℝ) :
    ℕ → K → Option K → ℝ → List ℝ → List ℝ → List ℝ →
    K × List ℝ × List ℝ × List ℝ
  | 0, img, _, _, fn, tn, cs => (img, fn, tn, cs)
  | fuel + 1, img, prev, step, fn, tn, cs =>
      let r := fnBody fwd adjW kdata lambda_t img prev step
      if r.stepOut < 1 / 10000 then
        (r.imgOut, fn ++ [r.fnormT], tn ++ [r.tnormT], cs ++ [r.costT])
      else
        fnLoop fwd adjW kdata lambda_t fuel r.imgOut (some r.updOld) r.stepOut
          (fn ++ [r.fnormT]) (tn ++ [r.tnormT]) (cs ++ [r.costT])

/-- `TotalVariationRecon_NLCG(kdata, kweight, kloc, sens_map, lambda_t,
max_iter)` (recon.py lines 222-284).  The initial image is the
density-weighted adjoint of the raw data (lines 243-248), which is exactly the
external adjoint path `adjW`; the initial step size is the hard-coded 2. -/
def TotalVariationRecon_NLCG (fwd adjW : K → K) (kdata : K) (lambda_t : ℝ)
    (max_iter : ℕ) : K × List ℝ × List ℝ × List ℝ :=
  fnLoop fwd adjW kdata lambda_t max_iter (adjW kdata) none 2 [] [] []

/-- State of a `TotalVariationReconNLCG` object after `__init__` (recon.py
lines 89-117): the forward/adjoint operator pair `A`/`AH` (external linops
built from trajectory and sensitivity maps), the stored pre-weighted
measurements `y`, the initial image `x = A.H(y)`, the regularisation weight,
the iteration budget and the initial step size. -/
structure CState where
  A : K → K
  AH : K → K
  y : K
  x : K
  lam : ℝ
  maxIter : ℕ
  stepInit : ℝ

namespace NLCG

/-- `TotalVariationReconNLCG.__init__`: stores `y = ksp * dcf ** 0.5` and
`x = A.H(y)` (recon.py lines 89-117). -/
def init (ksp : K) (dcf : List ℝ) (A AH : K → K) (lambda_t : ℝ)
    (max_iter : ℕ) (step_size : ℝ) : CState :=
  let y := kspWeight ksp dcf
  ⟨A, AH, y, AH y, lambda_t, max_iter, step_size⟩

/-- `TotalVariationReconNLCG._update_fidelity` (recon.py lines 119-122):
`A.H(y - A(img))`. -/
def update_fidelity (st : CState) (img : K) : K :=
  st.AH (kspSub st.y (st.A img))

/-- `TotalVariationReconNLCG._update_temporal_fd` (recon.py lines 124-135):
same computation as `temporal_tv_update`. -/
def update_temporal_fd (img : K) : K :=
  let temp_a := (npDiff img).map normalizeFrame
  let temp_b := npDiff temp_a
  match temp_a with
  | [] => []
  | a0 :: _ => (a0 :: temp_b) ++ [(temp_a.getLastD []).map (fun z => -z)]

/-- `TotalVariationReconNLCG._calculate_fnorm` (recon.py lines 138-142):
`real(vdot(r, r)) / img.size` with `r = y - A(img)`. -/
def calculate_fnorm (st : CState) (img : K) : ℝ :=
  (imgVdot (kspSub st.y (st.A img)) (kspSub st.y (st.A img))).re / (imgSize img : ℝ)

/-- `TotalVariationReconNLCG._calculate_tnorm` (recon.py lines 144-148):
`lambda_t * sum(abs(diff(img, axis=0))) / img.size`. -/
def calculate_tnorm (st : CState) (img : K) : ℝ :=
  st.lam * (((npDiff img).map frameAbsSum).sum) / (imgSize img : ℝ)

/-- Total cost of the candidate `img + s * f_new` as evaluated inside
`TotalVariationReconNLCG._line_search`. -/
def lscost_c (st : CState) (img f_new : K) (s : ℝ) : ℝ :=
  let imgNew := imgAxpy img (s : ℂ) f_new
  calculate_fnorm st imgNew + calculate_tnorm st imgNew

/-- `TotalVariationReconNLCG._line_search(img, f_new, cost_old, step_size)`
(recon.py lines 199-219), with the default budget 15, `a = 1.3`, `b = 0.8`. -/
def line_search (st : CState) (img f_new : K) (cost_old step_size : ℝ) : ℝ :=
  ls_aux (lscost_c st img f_new) 15 step_size cost_old false

end NLCG

/-- The combined gradient of the class-based solver at one iteration:
fidelity gradient plus `lambda_t` times the temporal-TV gradient (recon.py
lines 162-163). -/
def classGrad (st : CState) (img : K) : K :=
  imgAxpy (NLCG.update_fidelity st img) ((st.lam : ℝ) : ℂ)
    (NLCG.update_temporal_fd img)

/-- Per-iteration results of the class-based solver loop body (recon.py lines
160-195): updated image, accepted step, the stored `(f2_old, f_old)` pair and
the three cost components recorded for this iteration. -/
structure BodyOut where
  imgOut : K
  stepOut : ℝ
  f2Out : ℂ
  dirOut : K
  fnormT : ℝ
  tnormT : ℝ
  costT : ℝ

/-- One iteration of the `TotalVariationReconNLCG.run` loop body (recon.py
lines 160-195).  `prev` is the `(f2_old, f_old)` pair from the previous
iteration; at iteration 0 the source aliases them to the freshly computed
gradient, which is `prev = none` here.  The conjugation
`util.axpy(f_new, beta, f_old)` happens before the line search, and the pair
stored for the next iteration is `(f2_new, conjugated direction)`. -/
def classBody (st : CState) (img : K) (prev : Option (ℂ × K)) (step : ℝ) : BodyOut :=
  let f := NLCG.update_fidelity st img
  let g := imgAxpy f ((st.lam : ℝ) : ℂ) (NLCG.update_temporal_fd img)
  let f2new := imgVdot g g
  let p := prev.getD (f2new, g)
  let beta := f2new / (p.1 + (eps : ℂ))
  let dir := imgAxpy g beta p.2
  let fnormT := NLCG.calculate_fnorm st img
  let tnormT := NLCG.calculate_tnorm st img
  let costT := fnormT + tnormT
  let stepOut := NLCG.line_search st img dir costT step
  let imgOut := imgAxpy img ((stepOut : ℝ) : ℂ) dir
  ⟨imgOut, stepOut, f2new, dir, fnormT, tnormT, costT⟩

/-- The `for iter in range(self.max_iter)` loop of
`TotalVariationReconNLCG.run` (recon.py lines 160-195).  The image update is
applied before the `step_size < 2e-3` check, and the break fires before the
trace entries are appended, so the terminating iteration's entry is
discarded.  The state `st` is threaded through unchanged, mirroring that the
method only reads `self`. -/
def classLoop (st : CState) :
    ℕ → K → ℝ → Option (ℂ × K) → List ℝ → List ℝ → List ℝ →
    CState × K × List ℝ × List ℝ × List ℝ
  | 0, img, _, _, fn, tn, cs => (st, img, fn, tn, cs)
  | fuel + 1, img, step, prev, fn, tn, cs =>
      let r := classBody st img prev step
      if r.stepOut < 1 / 500 then
        (st, r.imgOut, fn, tn, cs)
      else
        classLoop st fuel r.imgOut r.stepOut (some (r.f2Out, r.dirOut))
          (fn ++ [r.fnormT]) (tn ++ [r.tnormT]) (cs ++ [r.costT])

/-- `TotalVariationReconNLCG.run` (recon.py lines 151-197). -/
def NLCG.run (st : CState) : CState × K × List ℝ × List ℝ × List ℝ :=
  classLoop st st.maxIter st.x st.stepInit none [] [] []

namespace Cex

/-- Pixel value of the second frame of a tiny synthetic dataset: two frames of
one pixel each, identity measurement operator, `lambda_t = 100`. -/
def Dr : ℝ := 1 / 10 ^ 8

/-- The measured data: frame 0 holds `0`, frame 1 holds `Dr`. -/
def yc : K := [[0], [Complex.ofReal Dr]]

/-- The smoothed-TV denominator `sqrt(Dr ^ 2 + eps)` at this dataset. -/
def sQ : ℝ := Real.sqrt (Dr ^ 2 + eps)

/-- The normalised temporal difference `Dr / sQ` of the initial image. -/
def cR : ℝ := Dr / sQ

/-- The iteration-0 conjugation coefficient `beta` of both solver variants at
this dataset: `⟨g, g⟩ / (⟨g, g⟩ + eps)` with `⟨g, g⟩ = 20000 * cR ^ 2`. -/
def betaR : ℝ := (20000 * cR ^ 2) / (20000 * cR ^ 2 + eps)

/-- Magnitude of the first pixel of the iteration-0 search direction,
`(1 + beta) * lambda * cR`. -/
def KR : ℝ := (1 + betaR) * (100 * cR)

/-- The iteration-0 combined gradient at this dataset. -/
def gC : K := [[Complex.ofReal (100 * cR)], [Complex.ofReal (-(100 * cR))]]

/-- The iteration-0 search direction (after conjugation) at this dataset. -/
def dirC : K := [[Complex.ofReal KR], [Complex.ofReal (-KR)]]

/-- Class-solver state for the synthetic dataset: identity forward/adjoint,
`y = x = yc`, `lambda_t = 100`, one iteration, initial step 2. -/
def stC : CState := ⟨id, id, yc, yc, 100, 1, 2⟩

end Cex

/-! ### Line-search unfolding lemmas -/

theorem ls_aux_zero (costAt : ℝ → ℝ) (step c : ℝ) (flag : Bool) :
    ls_aux costAt 0 step c flag = step := rfl

theorem ls_aux_shrink (costAt : ℝ → ℝ) (n : ℕ) (step c : ℝ)
    (h : c < costAt step) :
    ls_aux costAt (n + 1) step c false = ls_aux costAt n (step * (4 / 5)) c false := by
  simp only [ls_aux]
  rw [if_pos ⟨h, trivial⟩]

theorem ls_aux_grow (costAt : ℝ → ℝ) (n : ℕ) (step c : ℝ) (flag : Bool)
    (h : costAt step < c) :
    ls_aux costAt (n + 1) step c flag =
      ls_aux costAt n (step * (13 / 10)) (costAt step) true := by
  simp only [ls_aux]
  rw [if_neg (fun hc => absurd hc.1 (asymm h)), if_pos h]

theorem ls_aux_brake (costAt : ℝ → ℝ) (n : ℕ) (step c : ℝ)
    (h : c < costAt step) :
    ls_aux costAt (n + 1) step c true = step / (13 / 10) := by
  simp only [ls_aux]
  rw [if_neg (fun hc => by simpa using hc.2), if_neg (asymm h), if_pos ⟨h, trivial⟩]

theorem ls_aux_equal (costAt : ℝ → ℝ) (n : ℕ) (step c : ℝ) (flag : Bool)
    (h : costAt step = c) :
    ls_aux costAt (n + 1) step c flag = ls_aux costAt n step c flag := by
  simp only [ls_aux, h, lt_irrefl, false_and, if_false, if_neg (lt_irrefl c)]

theorem ls_count_spec (costAt : ℝ → ℝ) :
    ∀ (n : ℕ) (step c : ℝ) (flag : Bool),
      (ls_count costAt n step c flag).1 = ls_aux costAt n step c flag ∧
      (ls_count costAt n step c flag).2 ≤ n := by
  intro n
  induction n with
  | zero => exact fun step c flag => ⟨rfl, Nat.le_refl 0⟩
  | succ n ih =>
      intro step c flag
      simp only [ls_count, ls_aux]
      split_ifs with h1 h2 h3
      · exact ⟨(ih _ _ _).1, Nat.succ_le_succ (ih (step * (4 / 5)) c flag).2⟩
      · exact ⟨(ih _ _ _).1, Nat.succ_le_succ (ih (step * (13 / 10)) (costAt step) true).2⟩
      · exact ⟨rfl, Nat.succ_le_succ (Nat.zero_le n)⟩
      · exact ⟨(ih _ _ _).1, Nat.succ_le_succ (ih step c flag).2⟩

theorem ls_aux_pos (costAt : ℝ → ℝ) :
    ∀ (n : ℕ) (step c : ℝ) (flag : Bool), 0 < step →
      0 < ls_aux costAt n step c flag := by
  intro n
  induction n with
  | zero => exact fun step c flag h => h
  | succ n ih =>
      intro step c flag h
      simp only [ls_aux]
      split_ifs
      · exact ih _ _ _ (by positivity)
      · exact ih _ _ _ (by positivity)
      · positivity
      · exact ih _ _ _ h

theorem ls_aux_const (costAt : ℝ → ℝ) (c : ℝ) (h : ∀ t, costAt t = c) :
    ∀ (n : ℕ) (step : ℝ) (flag : Bool),
      ls_aux costAt n step c flag = step ∧
      ls_count costAt n step c flag = (step, n) := by
  intro n
  induction n with
  | zero => exact fun step flag => ⟨rfl, rfl⟩
  | succ n ih =>
      intro step flag
      have h1 : ¬(c < costAt step) := by rw [h step]; exact lt_irrefl c
      have h2 : ¬(costAt step < c) := by rw [h step]; exact lt_irrefl c
      constructor
      · simp only [ls_aux]
        rw [if_neg (fun hc => h1 hc.1), if_neg h2, if_neg (fun hc => h1 hc.1)]
        exact (ih step flag).1
      · simp only [ls_count]
        rw [if_neg (fun hc => h1 hc.1), if_neg h2, if_neg (fun hc => h1 hc.1)]
        rw [(ih step flag).2]

theorem ls_aux_all_shrink (costAt : ℝ → ℝ) (c : ℝ) :
    ∀ (fuel : ℕ) (step : ℝ), 0 < step →
      (∀ s, step * (4 / 5) ^ fuel ≤ s → s ≤ step → c < costAt s) →
      ls_aux costAt fuel step c false = step * (4 / 5) ^ fuel := by
  intro fuel
  induction fuel with
  | zero => intro step _ _; simp [ls_aux_zero]
  | succ n ih =>
      intro step hstep h
      have hpow : step * (4 / 5) ^ (n + 1) ≤ step := by
        have : ((4 : ℝ) / 5) ^ (n + 1) ≤ 1 := pow_le_one₀ (by norm_num) (by norm_num)
        nlinarith
      have hc : c < costAt step := h step hpow le_rfl
      rw [ls_aux_shrink costAt n step c hc]
      rw [ih (step * (4 / 5)) (by positivity) ?_]
      · ring
      · intro s hs1 hs2
        refine h s ?_ (le_trans hs2 (by nlinarith))
        calc step * (4 / 5) ^ (n + 1) = step * (4 / 5) * (4 / 5) ^ n := by ring
          _ ≤ s := hs1

/-! ### List-indexing lemmas for the temporal operators -/

theorem npDiff_length (l : K) : (npDiff l).length = l.length - 1 := by
  simp only [npDiff, List.length_zipWith, List.length_tail]
  exact Nat.min_eq_left (Nat.sub_le _ _)

theorem npDiff_getD (l : K) (k : ℕ) (h : k + 1 < l.length) :
    (npDiff l).getD k [] = frameSub (l.getD (k + 1) []) (l.getD k []) := by
  have h1 : k < (npDiff l).length := by rw [npDiff_length]; omega
  have h2 : k < l.tail.length := by rw [List.length_tail]; omega
  have h3 : k < l.length := by omega
  rw [List.getD_eq_getElem _ _ h1, List.getD_eq_getElem _ _ h, List.getD_eq_getElem _ _ h3]
  simp only [npDiff]
  rw [List.getElem_zipWith]
  rw [List.getElem_tail]

theorem map_getD_frames (f : List ℂ → List ℂ) (l : K) (k : ℕ) (h : k < l.length) :
    (l.map f).getD k [] = f (l.getD k []) := by
  have h1 : k < (l.map f).length := by simpa using h
  rw [List.getD_eq_getElem _ _ h1, List.getD_eq_getElem _ _ h, List.getElem_map]

theorem getLastD_eq_getD (l : K) : l.getLastD [] = l.getD (l.length - 1) [] := by
  rw [List.getLastD_eq_getLast?, List.getLast?_eq_getElem?, List.getD_eq_getElem?_getD]

theorem list_sum_eq_range_sum (l : K) (f : List ℂ → ℝ) :
    (l.map f).sum = ∑ k ∈ Finset.range l.length, f (l.getD k []) := by
  induction l with
  | nil => simp
  | cons a t ih =>
      rw [List.map_cons, List.sum_cons, List.length_cons, Finset.sum_range_succ']
      simp only [List.getD_cons_succ, List.getD_cons_zero]
      rw [ih]; ring

/-- Shape lemma: once the normalised forward difference is a nonempty list,
`temporal_tv_update` is the assembled sandwich. -/
theorem temporal_tv_update_eq (img : K) (b0 : List ℂ) (bs : List (List ℂ))
    (hb : (npDiff img).map normalizeFrame = b0 :: bs) :
    temporal_tv_update img =
      (b0 :: npDiff (b0 :: bs)) ++ [((b0 :: bs).getLastD []).map (fun z => -z)] := by
  simp only [temporal_tv_update, hb]

/-- The class method computes the same array as the free function. -/
theorem update_temporal_fd_eq : NLCG.update_temporal_fd = temporal_tv_update := rfl

/-! ### Claims C5, C9, C10: the line search -/

/-- C5: for every input, both line searches return within at most 15
sub-iterations — the instrumented search executes at most the budget of 15
loop entries and its returned step is exactly the one `line_search` returns,
whether or not any candidate improved the cost. -/
theorem C5_line_search_budget (st : CState) (img dir : K)
    (fwd adjW : K → K) (kdata : K) (lam : ℝ) (img2 upd : K)
    (cost step cost2 step2 : ℝ) :
    NLCG.line_search st img dir cost step =
      (ls_count (NLCG.lscost_c st img dir) 15 step cost false).1 ∧
    (ls_count (NLCG.lscost_c st img dir) 15 step cost false).2 ≤ 15 ∧
    line_search fwd adjW kdata lam img2 upd step2 cost2 =
      (ls_count (lscost_f fwd adjW kdata lam img2 upd) 15 step2 cost2 false).1 ∧
    (ls_count (lscost_f fwd adjW kdata lam img2 upd) 15 step2 cost2 false).2 ≤ 15 := by
  refine ⟨((ls_count_spec _ 15 step cost false).1).symm, (ls_count_spec _ 15 step cost false).2,
    ((ls_count_spec _ 15 step2 cost2 false).1).symm, (ls_count_spec _ 15 step2 cost2 false).2⟩

/-- C9: both line searches return a strictly positive step whenever the input
step is strictly positive: every sub-iteration only multiplies the step by
`0.8`, `1.3` or `1 / 1.3`. -/
theorem C9_line_search_positive (st : CState) (img dir : K)
    (fwd adjW : K → K) (kdata : K) (lam : ℝ) (img2 upd : K)
    (cost step cost2 step2 : ℝ) (h : 0 < step) (h2 : 0 < step2) :
    0 < NLCG.line_search st img dir cost step ∧
    0 < line_search fwd adjW kdata lam img2 upd step2 cost2 :=
  ⟨ls_aux_pos _ 15 step cost false h, ls_aux_pos _ 15 step2 cost2 false h2⟩

/-- Witness for C9 at a concrete state and input step. -/
theorem C9_line_search_positive_witness :
    0 < (2 : ℝ) ∧
    0 < NLCG.line_search ⟨id, id, [[0]], [[0]], 1, 1, 2⟩ [[0]] [[0]] 0 2 ∧
    0 < line_search id id [[0]] 1 [[0]] [[0]] 2 0 :=
  ⟨by norm_num,
    C9_line_search_positive ⟨id, id, [[0]], [[0]], 1, 1, 2⟩ [[0]] [[0]] id id [[0]] 1 [[0]] [[0]]
      0 2 0 2 (by norm_num) (by norm_num)⟩

/-- C10: a sub-iteration whose candidate cost is exactly the reference cost
fires no branch — the step, reference cost and improved flag are passed on
unchanged — and if every candidate cost equals the reference cost, both
searches run all 15 sub-iterations and return the input step unchanged. -/
theorem C10_equal_cost_neutral :
    (∀ (costAt : ℝ → ℝ) (n : ℕ) (step c : ℝ) (flag : Bool), costAt step = c →
       ls_aux costAt (n + 1) step c flag = ls_aux costAt n step c flag) ∧
    (∀ (st : CState) (img dir : K) (step c : ℝ),
       (∀ t, NLCG.lscost_c st img dir t = c) →
       NLCG.line_search st img dir c step = step ∧
       ls_count (NLCG.lscost_c st img dir) 15 step c false = (step, 15)) ∧
    (∀ (fwd adjW : K → K) (kdata : K) (lam : ℝ) (img upd : K) (step c : ℝ),
       (∀ t, lscost_f fwd adjW kdata lam img upd t = c) →
       line_search fwd adjW kdata lam img upd step c = step ∧
       ls_count (lscost_f fwd adjW kdata lam img upd) 15 step c false = (step, 15)) := by
  refine ⟨fun costAt n step c flag h => ls_aux_equal costAt n step c flag h,
    fun st img dir step c h => ⟨(ls_aux_const _ c h 15 step false).1, (ls_aux_const _ c h 15 step false).2⟩,
    fun fwd adjW kdata lam img upd step c h =>
      ⟨(ls_aux_const _ c h 15 step false).1, (ls_aux_const _ c h 15 step false).2⟩⟩

/-- Witness for C10: with a zero dataset, zero image and zero direction every
candidate cost equals the reference cost 0, and both searches return the
input step 2 unchanged. -/
theorem C10_equal_cost_neutral_witness :
    NLCG.line_search ⟨id, id, [[0], [0]], [[0], [0]], 1, 1, 2⟩ [[0], [0]] [[0], [0]] 0 2 = 2 ∧
    line_search id id [[0], [0]] 1 [[0], [0]] [[0], [0]] 2 0 = 2 := by
  have hc : ∀ t, NLCG.lscost_c ⟨id, id, [[0], [0]], [[0], [0]], 1, 1, 2⟩
      [[0], [0]] [[0], [0]] t = 0 := by
    intro t
    simp [NLCG.lscost_c, NLCG.calculate_fnorm, NLCG.calculate_tnorm, imgAxpy, kspSub,
      frameSub, imgVdot, npDiff, frameAbsSum, imgSize]
  have hf : ∀ t, lscost_f id id [[0], [0]] 1 [[0], [0]] [[0], [0]] t = 0 := by
    intro t
    simp [lscost_f, fidelity_update, calculate_tnorm, imgAxpy, kspSub,
      frameSub, imgVdot, npDiff, frameAbsSum, imgSize]
  exact ⟨(C10_equal_cost_neutral.2.1 _ _ _ 2 0 hc).1,
    (C10_equal_cost_neutral.2.2 id id [[0], [0]] 1 [[0], [0]] [[0], [0]] 2 0 hf).1⟩

/-! ### Claim C6: the temporal cost is the unsmoothed TV magnitude -/

theorem tnorm_sum_eq (img : K) :
    ((npDiff img).map frameAbsSum).sum =
      ∑ k ∈ Finset.range (img.length - 1),
        frameAbsSum (frameSub (img.getD (k + 1) []) (img.getD k [])) := by
  rw [list_sum_eq_range_sum, npDiff_length]
  refine Finset.sum_congr rfl ?_
  intro k hk
  simp only [Finset.mem_range] at hk
  rw [npDiff_getD]
  omega

/-- C6: both variants' temporal cost equals `lambda` times the sum of the
entrywise magnitudes of the plain first-order temporal differences
`image[k+1] - image[k]`, divided by the total element count — no epsilon
appears inside the magnitude, so the cost is the unsmoothed TV value,
independent of the smoothed gradient. -/
theorem C6_temporal_cost_unsmoothed (img : K) (lambda_t : ℝ) (st : CState) :
    calculate_tnorm img lambda_t =
      lambda_t * (∑ k ∈ Finset.range (img.length - 1),
        frameAbsSum (frameSub (img.getD (k + 1) []) (img.getD k []))) / (imgSize img : ℝ) ∧
    NLCG.calculate_tnorm st img =
      st.lam * (∑ k ∈ Finset.range (img.length - 1),
        frameAbsSum (frameSub (img.getD (k + 1) []) (img.getD k []))) / (imgSize img : ℝ) := by
  rw [calculate_tnorm, NLCG.calculate_tnorm, tnorm_sum_eq]
  exact ⟨rfl, rfl⟩

/-! ### Claim C7: constant-in-time images -/

theorem frameSub_self (fr : List ℂ) : frameSub fr fr = List.replicate fr.length 0 := by
  induction fr with
  | nil => rfl
  | cons a t _ => simp [frameSub, List.replicate_succ]

theorem smoothNormalize_zero : smoothNormalize 0 = 0 := by
  simp [smoothNormalize]

theorem normalizeFrame_zero (n : ℕ) :
    normalizeFrame (List.replicate n 0) = List.replicate n 0 := by
  simp [normalizeFrame, List.map_replicate, smoothNormalize_zero]

theorem npDiff_replicate (F : ℕ) (fr : List ℂ) :
    npDiff (List.replicate F fr) = List.replicate (F - 1) (frameSub fr fr) := by
  rw [npDiff, List.tail_replicate, List.zipWith_replicate]
  congr 1
  exact Nat.min_eq_left (Nat.sub_le _ _)

theorem frameAbsSum_zero (n : ℕ) : frameAbsSum (List.replicate n 0) = 0 := by
  simp [frameAbsSum, List.map_replicate, List.sum_replicate]

/-- C7: on an image whose frames are all identical, both variants' temporal
gradient is the all-zero array of the image's shape, and both variants'
temporal cost is exactly 0. -/
theorem C7_constant_image (st : CState) (F : ℕ) (fr : List ℂ) (lambda_t : ℝ)
    (h : 2 ≤ F) :
    temporal_tv_update (List.replicate F fr) =
      List.replicate F (List.replicate fr.length 0) ∧
    NLCG.update_temporal_fd (List.replicate F fr) =
      List.replicate F (List.replicate fr.length 0) ∧
    calculate_tnorm (List.replicate F fr) lambda_t = 0 ∧
    NLCG.calculate_tnorm st (List.replicate F fr) = 0 := by
  obtain ⟨m, rfl⟩ : ∃ m, F = m + 2 := ⟨F - 2, by omega⟩
  have hz : normalizeFrame (frameSub fr fr) = List.replicate fr.length 0 := by
    rw [frameSub_self, normalizeFrame_zero]
  have hb : (npDiff (List.replicate (m + 2) fr)).map normalizeFrame =
      List.replicate fr.length 0 :: List.replicate m (List.replicate fr.length 0) := by
    rw [npDiff_replicate, List.map_replicate, hz]
    simp [List.replicate_succ]
  have httv : temporal_tv_update (List.replicate (m + 2) fr) =
      List.replicate (m + 2) (List.replicate fr.length 0) := by
    rw [temporal_tv_update_eq _ _ _ hb]
    have hd : npDiff (List.replicate fr.length 0 :: List.replicate m (List.replicate fr.length 0)) =
        List.replicate m (List.replicate fr.length 0) := by
      have : (List.replicate fr.length (0 : ℂ)) :: List.replicate m (List.replicate fr.length 0) =
          List.replicate (m + 1) (List.replicate fr.length 0) := by
        rw [List.replicate_succ]
      rw [this, npDiff_replicate]
      rw [frameSub_self, List.length_replicate]
      congr 1
    have hlast : ((List.replicate fr.length (0 : ℂ)) ::
        List.replicate m (List.replicate fr.length 0)).getLastD [] =
        List.replicate fr.length 0 := by
      rw [getLastD_eq_getD]
      have hlen : ((List.replicate fr.length (0 : ℂ)) ::
          List.replicate m (List.replicate fr.length 0)).length = m + 1 := by simp
      rw [hlen]
      have : (List.replicate fr.length (0 : ℂ)) ::
          List.replicate m (List.replicate fr.length 0) =
          List.replicate (m + 1) (List.replicate fr.length 0) := by
        rw [List.replicate_succ]
      rw [this]
      rw [List.getD_eq_getElem _ _ (by simp), List.getElem_replicate]
    rw [hd, hlast]
    have hneg : (List.replicate fr.length (0 : ℂ)).map (fun z => -z) =
        List.replicate fr.length 0 := by
      simp [List.map_replicate]
    rw [hneg]
    rw [show (m + 2) = (m + 1) + 1 by ring, List.replicate_succ' (m + 1), List.replicate_succ]
  have htn : ((npDiff (List.replicate (m + 2) fr)).map frameAbsSum).sum = 0 := by
    rw [npDiff_replicate, List.map_replicate, frameSub_self, frameAbsSum_zero]
    simp [List.sum_replicate]
  refine ⟨httv, ?_, ?_, ?_⟩
  · rw [update_temporal_fd_eq]; exact httv
  · rw [calculate_tnorm, htn]; simp
  · rw [NLCG.calculate_tnorm, htn]; simp

/-- Witness for C7 at a concrete two-frame one-pixel constant image. -/
theorem C7_constant_image_witness :
    temporal_tv_update (List.replicate 2 [(1 : ℂ)]) =
      List.replicate 2 (List.replicate 1 0) ∧
    calculate_tnorm (List.replicate 2 [(1 : ℂ)]) 7 = 0 :=
  ⟨(C7_constant_image ⟨id, id, [[0]], [[0]], 1, 1, 2⟩ 2 [(1 : ℂ)] 7 (by norm_num)).1,
    (C7_constant_image ⟨id, id, [[0]], [[0]], 1, 1, 2⟩ 2 [(1 : ℂ)] 7 (by norm_num)).2.2.1⟩

/-! ### Claim C2: index formulas for the temporal gradient -/

/-- C2: for every image with at least two frames, the temporal-TV gradient has
the image's frame count, its entry 0 is `normalized_d[0]`, its interior entry
`k` is `normalized_d[k] - normalized_d[k-1]`, its last entry is
`-normalized_d[F-2]`, where `normalized_d` is the entrywise smoothed
normalisation of `image[k+1] - image[k]`; in particular on a 3-frame image
`[A, B, C]` the first entry depends only on `B - A`, the last only on `C - B`,
and the middle one on both. -/
theorem C2_temporal_gradient_formula (img : K) (h : 2 ≤ img.length) :
    (temporal_tv_update img).length = img.length ∧
    (temporal_tv_update img).getD 0 [] =
      normalizeFrame (frameSub (img.getD 1 []) (img.getD 0 [])) ∧
    (∀ k, 0 < k → k + 1 < img.length →
      (temporal_tv_update img).getD k [] =
        frameSub (normalizeFrame (frameSub (img.getD (k + 1) []) (img.getD k [])))
          (normalizeFrame (frameSub (img.getD k []) (img.getD (k - 1) [])))) ∧
    (temporal_tv_update img).getD (img.length - 1) [] =
      (normalizeFrame (frameSub (img.getD (img.length - 1) [])
        (img.getD (img.length - 2) []))).map (fun z => -z) ∧
    (∀ A B C : List ℂ, temporal_tv_update [A, B, C] =
      [normalizeFrame (frameSub B A),
       frameSub (normalizeFrame (frameSub C B)) (normalizeFrame (frameSub B A)),
       (normalizeFrame (frameSub C B)).map (fun z => -z)]) := by
  set F := img.length with hF
  set tb := (npDiff img).map normalizeFrame with htb
  have htblen : tb.length = F - 1 := by
    rw [htb, List.length_map, npDiff_length]
  have htbne : tb ≠ [] := List.ne_nil_of_length_pos (by omega)
  obtain ⟨b0, bs, hb⟩ := List.exists_cons_of_ne_nil htbne
  have hout : temporal_tv_update img =
      (b0 :: npDiff (b0 :: bs)) ++ [((b0 :: bs).getLastD []).map (fun z => -z)] :=
    temporal_tv_update_eq img b0 bs (htb ▸ hb)
  have hbslen : bs.length = F - 2 := by
    have := htblen
    rw [hb] at this
    simp only [List.length_cons] at this
    omega
  have hdblen : (npDiff (b0 :: bs)).length = F - 2 := by
    rw [npDiff_length]
    simp only [List.length_cons]
    omega
  have htb_getD : ∀ k, k + 1 < F → tb.getD k [] =
      normalizeFrame (frameSub (img.getD (k + 1) []) (img.getD k [])) := by
    intro k hk
    rw [htb, map_getD_frames _ _ _ (by rw [npDiff_length]; omega), npDiff_getD _ _ hk]
  refine ⟨?_, ?_, ?_, ?_, ?_⟩
  · rw [hout]
    rw [List.length_append, List.length_cons, hdblen]
    simp only [List.length_cons, List.length_nil]
    omega
  · rw [hout, List.cons_append, List.getD_cons_zero]
    have := htb_getD 0 (by omega)
    rw [hb] at this
    simpa using this
  · intro k hk0 hk1
    obtain ⟨j, rfl⟩ : ∃ j, k = j + 1 := ⟨k - 1, by omega⟩
    rw [hout, List.cons_append, List.getD_cons_succ]
    rw [List.getD_append _ _ _ _ (by rw [hdblen]; omega)]
    have hstep : npDiff (b0 :: bs) = npDiff tb := by rw [hb]
    rw [hstep, npDiff_getD tb j (by omega)]
    rw [htb_getD (j + 1) (by omega), htb_getD j (by omega)]
    simp
  · rw [hout, List.cons_append]
    obtain ⟨j, hFj⟩ : ∃ j, F = j + 2 := ⟨F - 2, by omega⟩
    have hidx : F - 1 = (F - 2) + 1 := by omega
    rw [hidx, List.getD_cons_succ]
    rw [List.getD_append_right _ _ _ _ (by rw [hdblen])]
    rw [hdblen, Nat.sub_self, List.getD_cons_zero]
    have hlast : (b0 :: bs).getLastD [] = tb.getD (F - 2) [] := by
      rw [← hb, getLastD_eq_getD, htblen]
      congr 1
    rw [hlast, htb_getD (F - 2) (by omega)]
  · intro A B C
    rfl

/-! ### Claim C8: the stored measurements are never modified -/

theorem classLoop_state (st : CState) :
    ∀ (fuel : ℕ) (img : K) (step : ℝ) (prev : Option (ℂ × K))
      (fn tn cs : List ℝ),
      (classLoop st fuel img step prev fn tn cs).1 = st := by
  intro fuel
  induction fuel with
  | zero => intro img step prev fn tn cs; rfl
  | succ n ih =>
      intro img step prev fn tn cs
      simp only [classLoop]
      split_ifs
      · rfl
      · exact ih _ _ _ _ _ _

/-- C8: the k-space measurements are weighted by the square root of the
density compensation once, at construction, and the solver state that the run
threads through every iteration still holds exactly that array when the run
returns: no fidelity-gradient or cost evaluation changes it. -/
theorem C8_measurements_read_only (ksp : K) (dcf : List ℝ) (A AH : K → K)
    (lambda_t : ℝ) (max_iter : ℕ) (step_size : ℝ) :
    (NLCG.init ksp dcf A AH lambda_t max_iter step_size).y = kspWeight ksp dcf ∧
    ((NLCG.run (NLCG.init ksp dcf A AH lambda_t max_iter step_size)).1).y =
      kspWeight ksp dcf := by
  constructor
  · rfl
  · rw [NLCG.run, classLoop_state]
    rfl

/-- Witness for C2 at the concrete 3-frame image `[[1], [2], [4]]`. -/
theorem C2_temporal_gradient_formula_witness :
    (temporal_tv_update [[(1 : ℂ)], [(2 : ℂ)], [(4 : ℂ)]]).length =
      ([[(1 : ℂ)], [(2 : ℂ)], [(4 : ℂ)]] : K).length ∧
    (temporal_tv_update [[(1 : ℂ)], [(2 : ℂ)], [(4 : ℂ)]]).getD 0 [] =
      normalizeFrame (frameSub (([[(1 : ℂ)], [(2 : ℂ)], [(4 : ℂ)]] : K).getD 1 [])
        (([[(1 : ℂ)], [(2 : ℂ)], [(4 : ℂ)]] : K).getD 0 [])) :=
  ⟨(C2_temporal_gradient_formula [[(1 : ℂ)], [(2 : ℂ)], [(4 : ℂ)]] (by norm_num)).1,
    (C2_temporal_gradient_formula [[(1 : ℂ)], [(2 : ℂ)], [(4 : ℂ)]] (by norm_num)).2.1⟩

/-! ### Claim C1: the iteration-0 direction -/

theorem zipWith_axpy_self (b : ℂ) (fr : List ℂ) :
    List.zipWith (fun u v => u + b * v) fr fr = fr.map (fun v => (1 + b) * v) := by
  induction fr with
  | nil => rfl
  | cons a t ih => simp only [List.zipWith_cons_cons, List.map_cons, ih]; ring_nf

theorem imgAxpy_self (b : ℂ) (g : K) : imgAxpy g b g = imgSmul (1 + b) g := by
  induction g with
  | nil => rfl
  | cons fr t ih =>
      simp only [imgAxpy, imgSmul, List.zipWith_cons_cons, List.map_cons] at ih ⊢
      rw [zipWith_axpy_self]
      exact congrArg _ ih

/-- C1 (amended): at iteration 0 both variants apply the update
`image + step * (1 + beta) * g`, where `g` is the combined gradient and
`beta = ⟨g, g⟩ / (⟨g, g⟩ + eps)`: because the previous direction is
initialised to the current gradient, the conjugation already fires at
iteration 0 and scales the gradient by `1 + beta` (close to 2), rather than
using the gradient as-is. -/
theorem C1_amended_first_update (st : CState) (img : K) (step : ℝ)
    (fwd adjW : K → K) (kdata : K) (lambda_t : ℝ) (img2 : K) (step2 : ℝ) :
    (classBody st img none step).imgOut =
      imgAxpy img (Complex.ofReal ((classBody st img none step).stepOut))
        (imgSmul (1 + cgBeta (classGrad st img)) (classGrad st img)) ∧
    (fnBody fwd adjW kdata lambda_t img2 none step2).imgOut =
      imgAxpy img2 (Complex.ofReal ((fnBody fwd adjW kdata lambda_t img2 none step2).stepOut))
        (imgSmul (1 + cgBeta (fnGrad fwd adjW kdata lambda_t img2)) (fnGrad fwd adjW kdata lambda_t img2)) := by
  constructor
  · simp only [classBody, classGrad, cgBeta, Option.getD, imgAxpy_self]
  · simp only [fnBody, fnGrad, cgBeta, Option.getD, imgAxpy_self]

/-! ### Bounds for the synthetic dataset of `Cex` -/

theorem eps_pos : 0 < eps := by norm_num [eps]

theorem cex_Dr_pos : 0 < Cex.Dr := by norm_num [Cex.Dr]

theorem cex_sQ_pos : 0 < Cex.sQ := by
  rw [Cex.sQ]
  exact Real.sqrt_pos.mpr (by nlinarith [eps_pos, sq_nonneg Cex.Dr])

theorem cex_Dr_le_sQ : Cex.Dr ≤ Cex.sQ := by
  rw [Cex.sQ]
  exact (Real.le_sqrt cex_Dr_pos.le (by nlinarith [eps_pos, sq_nonneg Cex.Dr])).mpr
    (by nlinarith [eps_pos])

theorem cex_sQ_le : Cex.sQ ≤ 2 * Cex.Dr := by
  rw [Cex.sQ]
  have h1 : Cex.Dr ^ 2 + eps ≤ (2 * Cex.Dr) ^ 2 := by norm_num [Cex.Dr, eps]
  calc Real.sqrt (Cex.Dr ^ 2 + eps) ≤ Real.sqrt ((2 * Cex.Dr) ^ 2) := Real.sqrt_le_sqrt h1
    _ = 2 * Cex.Dr := Real.sqrt_sq (by norm_num [Cex.Dr])

theorem cex_cR_lb : 1 / 2 ≤ Cex.cR := by
  rw [Cex.cR, le_div_iff₀ cex_sQ_pos]
  nlinarith [cex_sQ_le]

theorem cex_cR_ub : Cex.cR ≤ 1 := by
  rw [Cex.cR, div_le_one cex_sQ_pos]
  exact cex_Dr_le_sQ

theorem cex_cR_pos : 0 < Cex.cR := by
  rw [Cex.cR]
  exact div_pos cex_Dr_pos cex_sQ_pos

theorem cex_betaR_pos : 0 < Cex.betaR := by
  rw [Cex.betaR]
  exact div_pos (by nlinarith [cex_cR_pos]) (by nlinarith [cex_cR_pos, eps_pos])

theorem cex_betaR_lt_one : Cex.betaR < 1 := by
  rw [Cex.betaR, div_lt_one (by nlinarith [cex_cR_pos, eps_pos])]
  nlinarith [eps_pos]

theorem cex_KR_lb : 50 ≤ Cex.KR := by
  rw [Cex.KR]
  nlinarith [cex_betaR_pos, cex_cR_lb, cex_cR_pos, mul_pos cex_betaR_pos cex_cR_pos]

theorem cex_KR_gt_grad : 100 * Cex.cR < Cex.KR := by
  rw [Cex.KR]
  nlinarith [mul_pos cex_betaR_pos cex_cR_pos]

/-! ### Evaluating one iteration on the synthetic dataset -/

theorem npDiff_two (a b : ℂ) : npDiff [[a], [b]] = [[b - a]] := rfl

theorem imgAxpy_two (a b c d s : ℂ) :
    imgAxpy [[a], [b]] s [[c], [d]] = [[a + s * c], [b + s * d]] := rfl

theorem kspSub_two (a b c d : ℂ) : kspSub [[a], [b]] [[c], [d]] = [[a - c], [b - d]] := rfl

theorem imgSize_two (a b : ℂ) : imgSize [[a], [b]] = 2 := rfl

theorem vdot_two_real (a b : ℝ) :
    imgVdot [[Complex.ofReal a], [Complex.ofReal b]] [[Complex.ofReal a], [Complex.ofReal b]] =
      Complex.ofReal (a ^ 2 + b ^ 2) := by
  simp [imgVdot, Complex.conj_ofReal]
  ring

theorem tnorm_two_real (a b lam : ℝ) :
    calculate_tnorm [[Complex.ofReal a], [Complex.ofReal b]] lam = lam * |b - a| / 2 := by
  rw [calculate_tnorm, npDiff_two]
  simp only [frameAbsSum, List.map_cons, List.map_nil, List.sum_cons, List.sum_nil, imgSize_two]
  rw [← Complex.ofReal_sub, Complex.abs_ofReal]
  norm_num

theorem cex_smoothNormalize :
    smoothNormalize (Complex.ofReal Cex.Dr) = Complex.ofReal Cex.cR := by
  rw [smoothNormalize, Complex.abs_ofReal, abs_of_nonneg cex_Dr_pos.le,
    Cex.cR, Cex.sQ, Complex.ofReal_div]

theorem cex_ttv :
    temporal_tv_update Cex.yc = [[Complex.ofReal Cex.cR], [Complex.ofReal (-Cex.cR)]] := by
  have h1 : (npDiff Cex.yc).map normalizeFrame = [[Complex.ofReal Cex.cR]] := by
    rw [Cex.yc, npDiff_two, sub_zero]
    simp [normalizeFrame, cex_smoothNormalize]
  rw [temporal_tv_update_eq _ _ _ h1]
  simp [npDiff, List.getLastD, Complex.ofReal_neg]

theorem cex_fidelity : NLCG.update_fidelity Cex.stC Cex.yc = [[0], [0]] := by
  rw [NLCG.update_fidelity]
  show kspSub Cex.yc Cex.yc = [[0], [0]]
  rw [Cex.yc, kspSub_two]
  simp

theorem cex_grad : classGrad Cex.stC Cex.yc = Cex.gC := by
  rw [classGrad, cex_fidelity, update_temporal_fd_eq, cex_ttv]
  show imgAxpy [[0], [0]] ((100 : ℝ) : ℂ) _ = Cex.gC
  rw [imgAxpy_two, Cex.gC]
  norm_num

theorem cex_gradF : fnGrad id id Cex.yc 100 Cex.yc = Cex.gC := by
  rw [fnGrad, cex_ttv]
  show imgAxpy (kspSub Cex.yc Cex.yc) ((100 : ℝ) : ℂ) _ = Cex.gC
  rw [Cex.yc, kspSub_two, sub_self, sub_self, imgAxpy_two, Cex.gC]
  norm_num

theorem cex_vdot_g : imgVdot Cex.gC Cex.gC = Complex.ofReal (20000 * Cex.cR ^ 2) := by
  rw [Cex.gC, vdot_two_real]
  norm_num
  ring

theorem cex_beta : cgBeta Cex.gC = Complex.ofReal Cex.betaR := by
  rw [cgBeta, cex_vdot_g, Cex.betaR, Complex.ofReal_div, Complex.ofReal_add]

theorem cex_dir : imgAxpy Cex.gC (Complex.ofReal Cex.betaR) Cex.gC = Cex.dirC := by
  rw [imgAxpy_self, Cex.gC, Cex.dirC, imgSmul]
  simp only [List.map_cons, List.map_nil]
  norm_num
  rw [Cex.KR]
  push_cast
  ring

theorem cex_imgNew (s : ℝ) :
    imgAxpy Cex.yc ((s : ℝ) : ℂ) Cex.dirC =
      [[Complex.ofReal (s * Cex.KR)], [Complex.ofReal (Cex.Dr - s * Cex.KR)]] := by
  rw [Cex.yc, Cex.dirC, imgAxpy_two]
  norm_num
  ring

theorem cex_fnormC_at (u v : ℝ) :
    NLCG.calculate_fnorm Cex.stC [[Complex.ofReal u], [Complex.ofReal v]] =
      (u ^ 2 + (Cex.Dr - v) ^ 2) / 2 := by
  have h0 : NLCG.calculate_fnorm Cex.stC [[Complex.ofReal u], [Complex.ofReal v]] =
      (imgVdot (kspSub Cex.yc [[Complex.ofReal u], [Complex.ofReal v]])
        (kspSub Cex.yc [[Complex.ofReal u], [Complex.ofReal v]])).re /
        (imgSize [[Complex.ofReal u], [Complex.ofReal v]] : ℝ) := rfl
  rw [h0, Cex.yc, kspSub_two]
  rw [show (0 : ℂ) - Complex.ofReal u = Complex.ofReal (0 - u) by push_cast; ring]
  rw [show Complex.ofReal Cex.Dr - Complex.ofReal v = Complex.ofReal (Cex.Dr - v) by
    push_cast; ring]
  rw [vdot_two_real, imgSize_two, Complex.ofReal_re]
  norm_num

theorem cex_fnormF_at (u v : ℝ) :
    (fidelity_update id id Cex.yc [[Complex.ofReal u], [Complex.ofReal v]]).2 =
      (u ^ 2 + (Cex.Dr - v) ^ 2) / 2 := by
  have h0 : (fidelity_update id id Cex.yc [[Complex.ofReal u], [Complex.ofReal v]]).2 =
      Complex.abs (imgVdot (kspSub Cex.yc [[Complex.ofReal u], [Complex.ofReal v]])
        (kspSub Cex.yc [[Complex.ofReal u], [Complex.ofReal v]])) /
        (imgSize [[Complex.ofReal u], [Complex.ofReal v]] : ℝ) := rfl
  rw [h0, Cex.yc, kspSub_two]
  rw [show (0 : ℂ) - Complex.ofReal u = Complex.ofReal (0 - u) by push_cast; ring]
  rw [show Complex.ofReal Cex.Dr - Complex.ofReal v = Complex.ofReal (Cex.Dr - v) by
    push_cast; ring]
  rw [vdot_two_real, imgSize_two, Complex.abs_ofReal,
    abs_of_nonneg (by positivity : (0 : ℝ) ≤ (0 - u) ^ 2 + (Cex.Dr - v) ^ 2)]
  norm_num

theorem cex_tnormF : calculate_tnorm Cex.yc 100 = 50 * Cex.Dr := by
  rw [Cex.yc, calculate_tnorm, npDiff_two, sub_zero]
  simp only [frameAbsSum, List.map_cons, List.map_nil, List.sum_cons, List.sum_nil,
    imgSize_two]
  rw [Complex.abs_ofReal, abs_of_nonneg cex_Dr_pos.le]
  norm_num
  ring

theorem cex_tnorm : NLCG.calculate_tnorm Cex.stC Cex.yc = 50 * Cex.Dr := cex_tnormF

theorem cex_fnorm : NLCG.calculate_fnorm Cex.stC Cex.yc = 0 := by
  have h1 : Cex.yc = [[Complex.ofReal 0], [Complex.ofReal Cex.Dr]] := by
    rw [Cex.yc]; norm_num
  rw [h1, cex_fnormC_at]
  norm_num

theorem cex_fnormF0 : (fidelity_update id id Cex.yc Cex.yc).2 = 0 := by
  have h1 : Cex.yc = [[Complex.ofReal 0], [Complex.ofReal Cex.Dr]] := by
    rw [Cex.yc]; norm_num
  rw [show (fidelity_update id id Cex.yc Cex.yc).2 =
    (fidelity_update id id Cex.yc [[Complex.ofReal 0], [Complex.ofReal Cex.Dr]]).2 by rw [← h1]]
  rw [cex_fnormF_at]
  norm_num

theorem cex_lscost_c (s : ℝ) :
    NLCG.lscost_c Cex.stC Cex.yc Cex.dirC s =
      s ^ 2 * Cex.KR ^ 2 + 50 * |Cex.Dr - 2 * s * Cex.KR| := by
  rw [NLCG.lscost_c]
  rw [cex_imgNew, cex_fnormC_at]
  rw [show NLCG.calculate_tnorm Cex.stC
      [[Complex.ofReal (s * Cex.KR)], [Complex.ofReal (Cex.Dr - s * Cex.KR)]] =
      calculate_tnorm [[Complex.ofReal (s * Cex.KR)], [Complex.ofReal (Cex.Dr - s * Cex.KR)]]
        100 from rfl]
  rw [tnorm_two_real]
  rw [show Cex.Dr - s * Cex.KR - s * Cex.KR = Cex.Dr - 2 * s * Cex.KR by ring]
  ring

theorem cex_lscost_f (s : ℝ) :
    lscost_f id id Cex.yc 100 Cex.yc Cex.dirC s =
      s ^ 2 * Cex.KR ^ 2 + 50 * |Cex.Dr - 2 * s * Cex.KR| := by
  rw [lscost_f]
  rw [cex_imgNew, cex_fnormF_at, tnorm_two_real]
  rw [show Cex.Dr - s * Cex.KR - s * Cex.KR = Cex.Dr - 2 * s * Cex.KR by ring]
  ring

theorem cex_worsen (s : ℝ) (hs : 1 / 100000 ≤ s) :
    50 * Cex.Dr < s ^ 2 * Cex.KR ^ 2 + 50 * |Cex.Dr - 2 * s * Cex.KR| := by
  have hK := cex_KR_lb
  have hDr : Cex.Dr = 1 / 10 ^ 8 := rfl
  have hsK : 1 / 2000 ≤ s * Cex.KR := by nlinarith
  have habs : |Cex.Dr - 2 * s * Cex.KR| = 2 * s * Cex.KR - Cex.Dr := by
    rw [abs_of_nonpos (by nlinarith)]
    ring
  rw [habs]
  nlinarith [sq_nonneg (s * Cex.KR)]

theorem cex_lsC (s0 : ℝ) (h0 : 0 < s0) (h1 : 1 / 100000 ≤ s0 * (4 / 5) ^ 15) :
    NLCG.line_search Cex.stC Cex.yc Cex.dirC (50 * Cex.Dr) s0 = s0 * (4 / 5) ^ 15 := by
  rw [NLCG.line_search]
  apply ls_aux_all_shrink _ _ 15 s0 h0
  intro s hs1 hs2
  rw [cex_lscost_c]
  exact cex_worsen s (le_trans h1 hs1)

theorem cex_lsF (s0 : ℝ) (h0 : 0 < s0) (h1 : 1 / 100000 ≤ s0 * (4 / 5) ^ 15) :
    line_search id id Cex.yc 100 Cex.yc Cex.dirC s0 (50 * Cex.Dr) = s0 * (4 / 5) ^ 15 := by
  rw [line_search]
  apply ls_aux_all_shrink _ _ 15 s0 h0
  intro s hs1 hs2
  rw [cex_lscost_f]
  exact cex_worsen s (le_trans h1 hs1)

theorem cex_classBody (s0 : ℝ) (h0 : 0 < s0) (h1 : 1 / 100000 ≤ s0 * (4 / 5) ^ 15) :
    classBody Cex.stC Cex.yc none s0 =
      ⟨imgAxpy Cex.yc (Complex.ofReal (s0 * (4 / 5) ^ 15)) Cex.dirC,
        s0 * (4 / 5) ^ 15, Complex.ofReal (20000 * Cex.cR ^ 2), Cex.dirC,
        0, 50 * Cex.Dr, 50 * Cex.Dr⟩ := by
  have hg : imgAxpy (NLCG.update_fidelity Cex.stC Cex.yc) ((Cex.stC.lam : ℝ) : ℂ)
      (NLCG.update_temporal_fd Cex.yc) = Cex.gC := cex_grad
  have hb : imgVdot Cex.gC Cex.gC / (imgVdot Cex.gC Cex.gC + (eps : ℂ)) =
      Complex.ofReal Cex.betaR := cex_beta
  simp only [classBody, Option.getD]
  rw [hg, cex_vdot_g, ← cex_vdot_g, hb, cex_dir, cex_fnorm, cex_tnorm, zero_add,
    cex_lsC s0 h0 h1, cex_vdot_g]

theorem cex_fnBody (s0 : ℝ) (h0 : 0 < s0) (h1 : 1 / 100000 ≤ s0 * (4 / 5) ^ 15) :
    fnBody id id Cex.yc 100 Cex.yc none s0 =
      ⟨imgAxpy Cex.yc (Complex.ofReal (s0 * (4 / 5) ^ 15)) Cex.dirC,
        s0 * (4 / 5) ^ 15, Cex.dirC, 0, 50 * Cex.Dr, 50 * Cex.Dr⟩ := by
  have hg : imgAxpy (fidelity_update id id Cex.yc Cex.yc).1 (((100 : ℝ) : ℝ) : ℂ)
      (temporal_tv_update Cex.yc) = Cex.gC := cex_gradF
  have hb : imgVdot Cex.gC Cex.gC / (imgVdot Cex.gC Cex.gC + (eps : ℂ)) =
      Complex.ofReal Cex.betaR := cex_beta
  simp only [fnBody, Option.getD]
  rw [hg, hb, cex_dir, cex_fnormF0, cex_tnormF, zero_add, cex_lsF s0 h0 h1]

/-! ### Loop-step lemmas -/

theorem fnBody_costT (fwd adjW : K → K) (kdata : K) (lam : ℝ) (img : K)
    (prev : Option K) (step : ℝ) :
    (fnBody fwd adjW kdata lam img prev step).costT =
      (fidelity_update fwd adjW kdata img).2 + calculate_tnorm img lam := rfl

theorem fnLoop_cons (fwd adjW : K → K) (kdata : K) (lam : ℝ) (fuel : ℕ)
    (img : K) (prev : Option K) (step : ℝ) (fn tn cs : List ℝ)
    (h : ¬ (fnBody fwd adjW kdata lam img prev step).stepOut < 1 / 10000) :
    fnLoop fwd adjW kdata lam (fuel + 1) img prev step fn tn cs =
      fnLoop fwd adjW kdata lam fuel (fnBody fwd adjW kdata lam img prev step).imgOut
        (some (fnBody fwd adjW kdata lam img prev step).updOld)
        (fnBody fwd adjW kdata lam img prev step).stepOut
        (fn ++ [(fnBody fwd adjW kdata lam img prev step).fnormT])
        (tn ++ [(fnBody fwd adjW kdata lam img prev step).tnormT])
        (cs ++ [(fnBody fwd adjW kdata lam img prev step).costT]) := by
  simp only [fnLoop]
  rw [if_neg h]

theorem fnLoop_one_cost (fwd adjW : K → K) (kdata : K) (lam : ℝ)
    (img : K) (prev : Option K) (step : ℝ) (fn tn cs : List ℝ) :
    (fnLoop fwd adjW kdata lam 1 img prev step fn tn cs).2.2.2 =
      cs ++ [(fnBody fwd adjW kdata lam img prev step).costT] := by
  simp only [fnLoop]
  split_ifs <;> rfl

theorem classLoop_cons (st : CState) (fuel : ℕ) (img : K) (step : ℝ)
    (prev : Option (ℂ × K)) (fn tn cs : List ℝ)
    (h : ¬ (classBody st img prev step).stepOut < 1 / 500) :
    classLoop st (fuel + 1) img step prev fn tn cs =
      classLoop st fuel (classBody st img prev step).imgOut
        (classBody st img prev step).stepOut
        (some ((classBody st img prev step).f2Out, (classBody st img prev step).dirOut))
        (fn ++ [(classBody st img prev step).fnormT])
        (tn ++ [(classBody st img prev step).tnormT])
        (cs ++ [(classBody st img prev step).costT]) := by
  simp only [classLoop]
  rw [if_neg h]

/-! ### Claim C1: the iteration-0 update on the synthetic dataset -/

theorem cex_imgNew_g (s : ℝ) :
    imgAxpy Cex.yc (Complex.ofReal s) Cex.gC =
      [[Complex.ofReal (s * (100 * Cex.cR))],
       [Complex.ofReal (Cex.Dr - s * (100 * Cex.cR))]] := by
  rw [Cex.yc, Cex.gC, imgAxpy_two]
  norm_num
  ring

theorem cex_run_class :
    NLCG.run Cex.stC =
      (Cex.stC, imgAxpy Cex.yc (Complex.ofReal (2 * (4 / 5) ^ 15)) Cex.dirC,
        [0], [50 * Cex.Dr], [50 * Cex.Dr]) := by
  have h2 : NLCG.run Cex.stC = classLoop Cex.stC 1 Cex.yc 2 none [] [] [] := rfl
  rw [h2]
  rw [classLoop_cons Cex.stC 0 Cex.yc 2 none [] [] []
    (by rw [cex_classBody 2 (by norm_num) (by norm_num)]; norm_num)]
  rw [cex_classBody 2 (by norm_num) (by norm_num)]
  simp [classLoop]

/-- C1 (counterexample): on the synthetic dataset, the image produced by the
first (and only) iteration of the class-based solver is *not*
`image + step * g` with `g` the combined gradient and `step` the accepted
step of that iteration — the applied direction carries the extra `1 + beta`
factor. -/
theorem C1_iteration0_direction_cex :
    (NLCG.run Cex.stC).2.1 ≠
      imgAxpy Cex.stC.x
        (Complex.ofReal ((classBody Cex.stC Cex.stC.x none Cex.stC.stepInit).stepOut))
        (imgAxpy (NLCG.update_fidelity Cex.stC Cex.stC.x) ((Cex.stC.lam : ℝ) : ℂ)
          (NLCG.update_temporal_fd Cex.stC.x)) := by
  intro h
  have hx : Cex.stC.x = Cex.yc := rfl
  have hg : imgAxpy (NLCG.update_fidelity Cex.stC Cex.yc) ((Cex.stC.lam : ℝ) : ℂ)
      (NLCG.update_temporal_fd Cex.yc) = Cex.gC := cex_grad
  rw [cex_run_class, hx] at h
  rw [hg] at h
  rw [show Cex.stC.stepInit = (2 : ℝ) from rfl] at h
  rw [cex_classBody 2 (by norm_num) (by norm_num)] at h
  rw [cex_imgNew (2 * (4 / 5) ^ 15), cex_imgNew_g (2 * (4 / 5) ^ 15)] at h
  simp only [List.cons.injEq, and_true] at h
  obtain ⟨h1, -⟩ := h
  rw [Complex.ofReal_inj] at h1
  have hs2 : (0 : ℝ) < 2 * (4 / 5) ^ 15 := by norm_num
  nlinarith [cex_KR_gt_grad, hs2, h1]

/-! ### Claim C3: the recorded cost trace can increase -/

/-- C3 (counterexample): a two-iteration run of the free-function solver on
the synthetic dataset returns a cost trace of length 2 whose second entry
exceeds the first by more than 1: the iteration-0 line search exhausts its
budget without finding an improving step, the non-improving step is applied
anyway, and the cost recorded at iteration 1 blows up. -/
theorem C3_cost_trace_cex :
    ((TotalVariationRecon_NLCG id id Cex.yc 100 2).2.2.2).length = 2 ∧
    ((TotalVariationRecon_NLCG id id Cex.yc 100 2).2.2.2).getD 0 0 + 1 <
      ((TotalVariationRecon_NLCG id id Cex.yc 100 2).2.2.2).getD 1 0 := by
  have hb := cex_fnBody 2 (by norm_num) (by norm_num)
  have hrun : TotalVariationRecon_NLCG id id Cex.yc 100 2 =
      fnLoop id id Cex.yc 100 2 Cex.yc none 2 [] [] [] := rfl
  have hcons := fnLoop_cons id id Cex.yc 100 1 Cex.yc none 2 [] [] []
    (by rw [hb]; norm_num)
  rw [hrun, hcons, hb]
  rw [fnLoop_one_cost]
  rw [fnBody_costT]
  rw [cex_imgNew (2 * (4 / 5) ^ 15)]
  rw [cex_fnormF_at, tnorm_two_real]
  have hKR := cex_KR_lb
  have hDr : Cex.Dr = 1 / 10 ^ 8 := rfl
  have hpow : (7 : ℝ) / 100 ≤ 2 * (4 / 5) ^ 15 := by norm_num
  have hv : (7 : ℝ) / 2 ≤ 2 * (4 / 5) ^ 15 * Cex.KR := by nlinarith
  have habs : (0 : ℝ) ≤ 100 * |Cex.Dr - 2 * (4 / 5) ^ 15 * Cex.KR -
      2 * (4 / 5) ^ 15 * Cex.KR| / 2 := by positivity
  constructor
  · simp
  · simp only [List.nil_append, List.singleton_append, List.getD_cons_zero, List.getD_cons_succ]
    nlinarith [hv, habs]

/-- C3 (amended): the cost entry recorded at iteration `n + 1` is exactly the
line-search objective evaluated at iteration `n`'s accepted step, so the
trace is non-increasing between two consecutive entries exactly when the
accepted step does not worsen that objective — which the line search does not
guarantee when it exhausts its budget without improvement. -/
theorem C3_amended_cost_link (fwd adjW : K → K) (kdata : K) (lam : ℝ)
    (img : K) (prev prev2 : Option K) (step step2 : ℝ) :
    (fnBody fwd adjW kdata lam
        (fnBody fwd adjW kdata lam img prev step).imgOut prev2 step2).costT =
      lscost_f fwd adjW kdata lam img
        (fnBody fwd adjW kdata lam img prev step).updOld
        (fnBody fwd adjW kdata lam img prev step).stepOut ∧
    (lscost_f fwd adjW kdata lam img
        (fnBody fwd adjW kdata lam img prev step).updOld
        (fnBody fwd adjW kdata lam img prev step).stepOut ≤
        (fnBody fwd adjW kdata lam img prev step).costT →
      (fnBody fwd adjW kdata lam
          (fnBody fwd adjW kdata lam img prev step).imgOut prev2 step2).costT ≤
        (fnBody fwd adjW kdata lam img prev step).costT) := by
  refine ⟨rfl, ?_⟩
  intro h
  exact h

theorem cex0_ttv : temporal_tv_update [[(0 : ℂ)], [(0 : ℂ)]] = [[(0 : ℂ)], [(0 : ℂ)]] := by
  have h1 : (npDiff [[(0 : ℂ)], [(0 : ℂ)]]).map normalizeFrame = [[(0 : ℂ)]] := by
    rw [npDiff_two, sub_zero]
    simp [normalizeFrame, smoothNormalize_zero]
  rw [temporal_tv_update_eq _ _ _ h1]
  simp [npDiff, List.getLastD]

theorem cex0_fid :
    fidelity_update id id [[(0 : ℂ)], [(0 : ℂ)]] [[(0 : ℂ)], [(0 : ℂ)]] =
      ([[(0 : ℂ)], [(0 : ℂ)]], 0) := by
  have hr : kspSub [[(0 : ℂ)], [(0 : ℂ)]] (id [[(0 : ℂ)], [(0 : ℂ)]]) =
      [[(0 : ℂ)], [(0 : ℂ)]] := by
    show kspSub [[(0 : ℂ)], [(0 : ℂ)]] [[(0 : ℂ)], [(0 : ℂ)]] = _
    rw [kspSub_two]
    norm_num
  simp only [fidelity_update, hr]
  norm_num [imgVdot, imgSize]

theorem cex0_updOld :
    (fnBody id id [[(0 : ℂ)], [(0 : ℂ)]] 1 [[(0 : ℂ)], [(0 : ℂ)]] none 2).updOld =
      [[(0 : ℂ)], [(0 : ℂ)]] := by
  simp only [fnBody, Option.getD, cex0_fid, cex0_ttv]
  norm_num [imgAxpy_two]

theorem cex0_costT :
    (fnBody id id [[(0 : ℂ)], [(0 : ℂ)]] 1 [[(0 : ℂ)], [(0 : ℂ)]] none 2).costT = 0 := by
  rw [fnBody_costT, cex0_fid]
  norm_num [calculate_tnorm, npDiff_two, frameAbsSum, imgSize]

theorem cex0_lscost (s : ℝ) :
    lscost_f id id [[(0 : ℂ)], [(0 : ℂ)]] 1 [[(0 : ℂ)], [(0 : ℂ)]]
      [[(0 : ℂ)], [(0 : ℂ)]] s = 0 := by
  rw [lscost_f]
  have h1 : imgAxpy [[(0 : ℂ)], [(0 : ℂ)]] ((s : ℝ) : ℂ) [[(0 : ℂ)], [(0 : ℂ)]] =
      [[(0 : ℂ)], [(0 : ℂ)]] := by
    rw [imgAxpy_two]
    norm_num
  rw [h1, cex0_fid]
  norm_num [calculate_tnorm, npDiff_two, frameAbsSum, imgSize]

/-- Witness for the amended C3 at the all-zero dataset, where the accepted
step does not worsen the line-search objective. -/
theorem C3_amended_cost_link_witness :
    (fnBody id id [[(0 : ℂ)], [(0 : ℂ)]] 1
        (fnBody id id [[(0 : ℂ)], [(0 : ℂ)]] 1 [[(0 : ℂ)], [(0 : ℂ)]] none 2).imgOut
        none 2).costT ≤
      (fnBody id id [[(0 : ℂ)], [(0 : ℂ)]] 1 [[(0 : ℂ)], [(0 : ℂ)]] none 2).costT := by
  apply (C3_amended_cost_link id id [[(0 : ℂ)], [(0 : ℂ)]] 1 [[(0 : ℂ)], [(0 : ℂ)]]
    none none 2 2).2
  rw [cex0_updOld, cex0_lscost, cex0_costT]

/-! ### Claim C4: the two stopping thresholds -/

/-- C4 (counterexample): at a state of the free-function solver loop on the
synthetic dataset, the accepted step is below 2e-3 (the threshold the claim
says both variants use) yet above the 1e-4 the function-based code actually
uses, and the loop runs another iteration: its cost trace gets a second
entry instead of stopping. -/
theorem C4_threshold_cex :
    (fnBody id id Cex.yc 100 Cex.yc none (1 / 20)).stepOut < 1 / 500 ∧
    1 / 10000 ≤ (fnBody id id Cex.yc 100 Cex.yc none (1 / 20)).stepOut ∧
    ((fnLoop id id Cex.yc 100 2 Cex.yc none (1 / 20) [] [] []).2.2.2).length = 2 := by
  have hb := cex_fnBody (1 / 20) (by norm_num) (by norm_num)
  refine ⟨by rw [hb]; norm_num, by rw [hb]; norm_num, ?_⟩
  have hcons := fnLoop_cons id id Cex.yc 100 1 Cex.yc none (1 / 20) [] [] []
    (by rw [hb]; norm_num)
  rw [hcons, fnLoop_one_cost]
  simp

/-- C4 (amended): each variant stops when the accepted step falls below its
own threshold — 2e-3 in the class-based solver but 1e-4 in the free-function
solver — and on stopping the class-based solver discards the terminating
iteration's trace entries while the free-function solver keeps them. -/
theorem C4_amended_thresholds (st : CState) (fuel : ℕ) (img : K) (step : ℝ)
    (prev : Option (ℂ × K)) (fn tn cs : List ℝ)
    (fwd adjW : K → K) (kdata : K) (lam : ℝ) (img2 : K) (prev2 : Option K)
    (step2 : ℝ) (fn2 tn2 cs2 : List ℝ) :
    ((classBody st img prev step).stepOut < 1 / 500 →
      classLoop st (fuel + 1) img step prev fn tn cs =
        (st, (classBody st img prev step).imgOut, fn, tn, cs)) ∧
    ((fnBody fwd adjW kdata lam img2 prev2 step2).stepOut < 1 / 10000 →
      fnLoop fwd adjW kdata lam (fuel + 1) img2 prev2 step2 fn2 tn2 cs2 =
        ((fnBody fwd adjW kdata lam img2 prev2 step2).imgOut,
          fn2 ++ [(fnBody fwd adjW kdata lam img2 prev2 step2).fnormT],
          tn2 ++ [(fnBody fwd adjW kdata lam img2 prev2 step2).tnormT],
          cs2 ++ [(fnBody fwd adjW kdata lam img2 prev2 step2).costT])) := by
  constructor
  · intro h
    simp only [classLoop]
    rw [if_pos h]
  · intro h
    simp only [fnLoop]
    rw [if_pos h]

/-- Witness for the amended C4: on the synthetic dataset, a class-state with
incoming step 0.05 stops below 2e-3 discarding its trace entry, and a
function-state with incoming step 0.002 stops below 1e-4 keeping its trace
entry. -/
theorem C4_amended_thresholds_witness :
    classLoop Cex.stC 1 Cex.yc (1 / 20) none [] [] [] =
      (Cex.stC, (classBody Cex.stC Cex.yc none (1 / 20)).imgOut, [], [], []) ∧
    fnLoop id id Cex.yc 100 1 Cex.yc none (1 / 500) [] [] [] =
      ((fnBody id id Cex.yc 100 Cex.yc none (1 / 500)).imgOut,
        [(fnBody id id Cex.yc 100 Cex.yc none (1 / 500)).fnormT],
        [(fnBody id id Cex.yc 100 Cex.yc none (1 / 500)).tnormT],
        [(fnBody id id Cex.yc 100 Cex.yc none (1 / 500)).costT]) := by
  constructor
  · exact (C4_amended_thresholds Cex.stC 0 Cex.yc (1 / 20) none [] [] []
      id id Cex.yc 100 Cex.yc none (1 / 500) [] [] []).1
      (by rw [cex_classBody (1 / 20) (by norm_num) (by norm_num)]; norm_num)
  · have h2 := (C4_amended_thresholds Cex.stC 0 Cex.yc (1 / 20) none [] [] []
      id id Cex.yc 100 Cex.yc none (1 / 500) [] [] []).2
      (by rw [cex_fnBody (1 / 500) (by norm_num) (by norm_num)]; norm_num)
    simpa using h2

end

end CsRecon
